import Mathlib

/-!
Verification of the payoff simulation engine of the ynab-reports repository.

This file is a shallow embedding of the core of `src/python/payoff.py`
(ordering strategies, the monthly payment allocator, the balance updater,
the snowball bookkeeping and the payoff plan generator) and of
`src/python/history.py` (historical balance reconstruction), together with
theorems settling the frozen claims about them.

Modelling conventions:
* Python floats are modelled as exact rationals (`ℚ`).
* pandas DataFrames of accounts and of payment rows are modelled as lists
  of structures, iterated in row order exactly as `iterrows` does.
* `DataFrame.sort_values(col, ascending=False)` computes an ascending
  argsort of the column and then reverses the resulting indexer (pandas
  `nargsort`); for small arrays numpy's default sort degenerates to a
  stable insertion sort.  It is therefore modelled as
  `(List.insertionSort r l).reverse` with `r` the ascending comparison on
  the sort key.
* Fallible operations (`.iloc[0]` on an empty selection) are modelled with
  `Option`.
* The unbounded `while True:` loop of `generate_payoff_plan` is modelled
  with a fuel parameter; `none` means the loop has not terminated within
  `fuel` iterations (the Python code has no iteration cap and no error
  path, so it would still be running).
* Calendar month labels (`pd.Period`) are modelled as the month counter
  `n`; the per-month `log` of strings is omitted, it carries no data used
  by any computation.
-/

set_option linter.unusedVariables false
set_option linter.unnecessarySimpa false

namespace Ynab

/-- One debt account: a row of the `accounts_df` DataFrame with its
`account`, `interest_rate`, `balance` and `min_payment` columns. -/
structure Account where
  account : String
  interest_rate : ℚ
  balance : ℚ
  min_payment : ℚ
deriving DecidableEq

/-- One row of the payment DataFrame produced by
`calculate_month_payments` (payoff.py lines 227-236). -/
structure PaymentRow where
  account : String
  balance : ℚ
  min_payment : ℚ
  overflow : ℚ
  snowball : ℚ
  total_payment : ℚ
deriving DecidableEq

/-- Body of the `for index, row in accounts_df.iterrows()` loop of
`calculate_month_payments` (payoff.py lines 198-248): processes one
account given the running `snowball_left` and `overflow` values and
returns the payment row together with the updated running values. -/
def allocStep (row : Account) (snowball_left overflow : ℚ) :
    PaymentRow × ℚ × ℚ :=
  let balance_after_min_payment := row.balance + row.min_payment
  let overflow_to_apply :=
    if balance_after_min_payment < 0 then max balance_after_min_payment overflow
    else 0
  let balance_after_overflow := balance_after_min_payment + overflow_to_apply
  let snowball_to_apply :=
    if balance_after_overflow < 0 then max balance_after_overflow snowball_left
    else 0
  let total_payment :=
    min (-row.balance) (row.min_payment + overflow_to_apply + snowball_to_apply)
  let snowball_left' := max 0 (snowball_left - snowball_to_apply)
  let overflow' := min 0 (overflow - overflow_to_apply)
  let overflow'' :=
    if total_payment < row.min_payment + overflow_to_apply + snowball_to_apply then
      overflow' + -(total_payment -
        (row.min_payment + overflow_to_apply + snowball_to_apply))
    else overflow'
  let overflow''' := if total_payment = 0 then 0 else overflow''
  (⟨row.account, row.balance, row.min_payment, overflow_to_apply,
      snowball_to_apply, total_payment⟩,
    snowball_left', overflow''')

/-- The row loop of `calculate_month_payments`, threading the
`snowball_left` and `overflow` accumulators through the account list. -/
def calcMonthPaymentsAux : List Account → ℚ → ℚ → List PaymentRow
  | [], _, _ => []
  | a :: rest, snowball_left, overflow =>
    let step := allocStep a snowball_left overflow
    step.1 :: calcMonthPaymentsAux rest step.2.1 step.2.2

/-- `calculate_month_payments` (payoff.py lines 191-253): allocates this
month's payments over the ordered account rows, starting with
`snowball_left = snowball` and `overflow = 0`.  The Python function also
returns a list of log strings, omitted here. -/
def calculate_month_payments (accounts_df : List Account) (snowball : ℚ) :
    List PaymentRow :=
  calcMonthPaymentsAux accounts_df snowball 0

/-- The pair of running values `(snowball_left, overflow)` of the
`calculate_month_payments` loop after processing a prefix of the account
rows, starting from the given values. -/
def allocState : List Account → ℚ → ℚ → ℚ × ℚ
  | [], snowball_left, overflow => (snowball_left, overflow)
  | a :: rest, snowball_left, overflow =>
    let step := allocStep a snowball_left overflow
    allocState rest step.2.1 step.2.2

/-- `get_paid_off_accounts_this_round` (payoff.py lines 291-298): the
payment rows whose total payment equals minus their balance, restricted
to those with positive total payment.  The `accounts_df` argument is
unused, as in the source. -/
def get_paid_off_accounts_this_round (accounts_df : List Account)
    (payments_df : List PaymentRow) : List PaymentRow :=
  (payments_df.filter (fun p => decide (p.total_payment = -1 * p.balance))).filter
    (fun p => decide (0 < p.total_payment))

/-- `get_snowball_increase` (payoff.py lines 301-306): sum of the minimum
payments of the accounts paid off this round. -/
def get_snowball_increase (accounts_df : List Account)
    (payments_df : List PaymentRow) : ℚ :=
  ((get_paid_off_accounts_this_round accounts_df payments_df).map
    (fun p => p.min_payment)).sum

/-- The per-row arithmetic of `get_new_balances` (payoff.py lines
270-275): `interest` is zero when the payment clears the balance,
otherwise one month of interest accrues on the old balance; the principal
part of the payment is what moves the balance. -/
def updateBalance (old_balance total_payment interest_rate : ℚ) : ℚ :=
  let interest :=
    if 0 ≤ old_balance + total_payment then 0
    else -old_balance * (interest_rate / 12)
  let principal_payment := total_payment - interest
  old_balance + principal_payment

/-- `new_accounts_df.loc[new_accounts_df["account"] == account, "balance"]
= new_balance`: sets the balance of every row whose account name matches. -/
def setBalance (accounts : List Account) (name : String) (b : ℚ) :
    List Account :=
  accounts.map (fun a => if a.account = name then { a with balance := b } else a)

/-- The `for index, row in payments_df.iterrows()` loop of
`get_new_balances`: `orig` is the `accounts_df` argument (old balances are
always read from it), `cur` is the evolving `new_accounts_df` copy (the
interest rate is read from it).  `none` models the `IndexError` raised by
`.iloc[0]` when a payment row names an account absent from the frame. -/
def applyPayments (orig : List Account) :
    List PaymentRow → List Account → Option (List Account)
  | [], cur => some cur
  | p :: rest, cur =>
    match orig.find? (fun a => a.account = p.account),
        cur.find? (fun a => a.account = p.account) with
    | some oldA, some rateA =>
      applyPayments orig rest
        (setBalance cur p.account
          (updateBalance oldA.balance p.total_payment rateA.interest_rate))
    | _, _ => none

/-- `get_new_balances` (payoff.py lines 256-288): applies the payment rows
to a copy of the accounts frame. -/
def get_new_balances (accounts_df : List Account)
    (payments_df : List PaymentRow) : Option (List Account) :=
  applyPayments accounts_df payments_df accounts_df

/-- `DataFrame.sort_values(col, ascending=False)` as executed by pandas
`nargsort`: a stable ascending argsort of the key followed by reversing
the whole indexer. -/
def sort_values_desc (r : Account → Account → Prop) [DecidableRel r]
    (l : List Account) : List Account :=
  (List.insertionSort r l).reverse

/-- `DumbSnowball.get_ordering` (payoff.py lines 35-38): sort by the
`balance` column, descending. -/
def dumbSnowball_get_ordering (accounts_df : List Account) : List Account :=
  sort_values_desc (fun a b => a.balance ≤ b.balance) accounts_df

/-- `InterestRateSnowball.get_ordering` (payoff.py lines 55-57): sort by
the `interest_rate` column, descending. -/
def interestRateSnowball_get_ordering (accounts_df : List Account) :
    List Account :=
  sort_values_desc (fun a b => a.interest_rate ≤ b.interest_rate) accounts_df

/-- `custom_sort_key` of `SmartSnowball.get_ordering` (payoff.py lines
43-47): zero-interest rows get key `(0, -balance)`, the rest `(1, balance)`. -/
def smart_key (row : Account) : ℚ × ℚ :=
  if row.interest_rate = 0 then (0, -row.balance) else (1, row.balance)

/-- Python tuple comparison (lexicographic) on the `sort_key` column. -/
def SmartKeyLe (a b : Account) : Prop :=
  (smart_key a).1 < (smart_key b).1 ∨
    ((smart_key a).1 = (smart_key b).1 ∧ (smart_key a).2 ≤ (smart_key b).2)

instance : DecidableRel SmartKeyLe := fun a b => by
  unfold SmartKeyLe; infer_instance

instance : IsTotal Account SmartKeyLe :=
  ⟨fun a b => by
    unfold SmartKeyLe
    rcases lt_trichotomy (smart_key a).1 (smart_key b).1 with h | h | h
    · exact Or.inl (Or.inl h)
    · rcases le_total (smart_key a).2 (smart_key b).2 with h2 | h2
      · exact Or.inl (Or.inr ⟨h, h2⟩)
      · exact Or.inr (Or.inr ⟨h.symm, h2⟩)
    · exact Or.inr (Or.inl h)⟩

instance : IsTrans Account SmartKeyLe :=
  ⟨fun a b c hab hbc => by
    unfold SmartKeyLe at *
    rcases hab with h1 | ⟨h1, h1'⟩ <;> rcases hbc with h2 | ⟨h2, h2'⟩
    · exact Or.inl (h1.trans h2)
    · exact Or.inl (h2 ▸ h1)
    · exact Or.inl (h1 ▸ h2)
    · exact Or.inr ⟨h1.trans h2, h1'.trans h2'⟩⟩

/-- `SmartSnowball.get_ordering` (payoff.py lines 41-52): sort by the
tuple-valued `sort_key` column, descending. -/
def smartSnowball_get_ordering (accounts_df : List Account) : List Account :=
  sort_values_desc SmartKeyLe accounts_df

/-- `get_payoff_strategy` (payoff.py lines 63-71); `none` models the
`ValueError` raised for an unknown strategy name. -/
def get_payoff_strategy (strategy_name : String) :
    Option (List Account → List Account) :=
  if strategy_name = "lowest_balance" then some dumbSnowball_get_ordering
  else if strategy_name = "interest_rate" then some interestRateSnowball_get_ordering
  else if strategy_name = "smart" then some smartSnowball_get_ordering
  else none

/-- One entry of the `months` list built by `generate_payoff_plan`
(payoff.py lines 364-376).  The calendar `Period` label is replaced by the
month counter, and the string log is omitted. -/
structure PlanMonth where
  accounts : List Account
  month : ℕ
  snowball : ℚ
  total_overflow : ℚ
  payments : List PaymentRow
  total_min_payments : ℚ
  total_payment : ℚ
  new_balances : List Account
deriving DecidableEq

/-- The dictionary returned by `generate_payoff_plan` (payoff.py lines
385-390). -/
structure PayoffPlan where
  months : List PlanMonth
  orig_total_balance : ℚ
  cumulative_payments : ℚ
  n : ℕ
deriving DecidableEq

/-- One iteration of the `while True:` loop of `generate_payoff_plan`
(payoff.py lines 318-381): order the current accounts, allocate the
month's payments, apply them, and compute the aggregates.  Returns the
recorded month together with the total new balance (checked against the
loop exit condition) and the snowball increase. -/
def planStep (ordering : List Account → List Account)
    (accounts : List Account) (snowball : ℚ) (monthIdx : ℕ) :
    Option (PlanMonth × ℚ × ℚ) :=
  let ordering_for_month := ordering accounts
  let monthly_payments := calculate_month_payments ordering_for_month snowball
  match get_new_balances accounts monthly_payments with
  | none => none
  | some new_balances =>
    let total_min_payments :=
      ((monthly_payments.filter
          (fun p => decide (p.min_payment ≤ p.total_payment))).map
        (fun p => p.min_payment)).sum
    let total_overflow := (monthly_payments.map (fun p => p.overflow)).sum
    let total_payment := (monthly_payments.map (fun p => p.total_payment)).sum
    let total_balance := (new_balances.map (fun a => a.balance)).sum
    let snowball_increase := get_snowball_increase accounts monthly_payments
    some (⟨accounts, monthIdx, snowball, total_overflow, monthly_payments,
        total_min_payments, total_payment, new_balances⟩,
      total_balance, snowball_increase)

/-- The `while True:` loop of `generate_payoff_plan`, with fuel.  The loop
exits exactly when a month's total new balance is `≥ 0`; the Python code
has no iteration cap, so exhausted fuel (`none`) means the loop is still
running. -/
def generate_payoff_plan_aux (ordering : List Account → List Account)
    (snowball_inc : ℚ) :
    ℕ → List Account → ℚ → ℚ → List PlanMonth → ℕ →
      Option (List PlanMonth × ℚ × ℕ)
  | 0, _, _, _, _, _ => none
  | fuel + 1, accounts, snowball, cum, monthsAcc, n =>
    match planStep ordering accounts snowball (n + 1) with
    | none => none
    | some (month, total_balance, snowball_increase) =>
      if 0 ≤ total_balance then
        some (monthsAcc ++ [month], cum + month.total_payment, n + 1)
      else
        generate_payoff_plan_aux ordering snowball_inc fuel month.new_balances
          (snowball + snowball_increase + snowball_inc)
          (cum + month.total_payment) (monthsAcc ++ [month]) (n + 1)

/-- `generate_payoff_plan` (payoff.py lines 309-390). -/
def generate_payoff_plan (accounts_df : List Account)
    (snowball_start snowball_inc : ℚ)
    (ordering : List Account → List Account) (fuel : ℕ) : Option PayoffPlan :=
  (generate_payoff_plan_aux ordering snowball_inc fuel accounts_df
      snowball_start 0 [] 0).map
    (fun r => ⟨r.1, (accounts_df.map (fun a => a.balance)).sum, r.2.1, r.2.2⟩)

/-- One ledger transaction of `history.py`: the date is modelled as an
integer day ordinal (only its order matters), the amount as a rational. -/
structure Transaction where
  date : ℤ
  amount : ℚ
deriving DecidableEq

/-- `reconstruct_balance_at_date` (history.py lines 38-60): undo every
transaction dated strictly after `target_date` by subtracting its amount
from the running balance. -/
def reconstruct_balance_at_date (current_balance : ℚ)
    (transactions : List Transaction) (target_date : ℤ) : ℚ :=
  transactions.foldl
    (fun balance txn => if target_date < txn.date then balance - txn.amount
      else balance)
    current_balance

/-! ### Allocator lemmas -/

/-- The fields of an account that `calculate_month_payments` copies into
its payment row. -/
def rowData (p : PaymentRow) : String × ℚ × ℚ := (p.account, p.balance, p.min_payment)

/-- The corresponding fields of an account row. -/
def accData (a : Account) : String × ℚ × ℚ := (a.account, a.balance, a.min_payment)

theorem allocStep_rowData (a : Account) (sl ov : ℚ) :
    rowData (allocStep a sl ov).1 = accData a := rfl

theorem allocStep_balance (a : Account) (sl ov : ℚ) :
    (allocStep a sl ov).1.balance = a.balance := rfl

set_option maxHeartbeats 1600000 in
theorem allocStep_spec (a : Account) (sl ov : ℚ) (hb : a.balance ≤ 0)
    (hm : 0 ≤ a.min_payment) (hsl : 0 ≤ sl) (hov : 0 ≤ ov) :
    0 ≤ (allocStep a sl ov).1.total_payment ∧
      (allocStep a sl ov).1.total_payment ≤ -a.balance ∧
      (a.balance = 0 → (allocStep a sl ov).1.total_payment = 0) ∧
      0 ≤ (allocStep a sl ov).2.1 ∧ 0 ≤ (allocStep a sl ov).2.2 := by
  simp only [allocStep, min_def, max_def]
  split_ifs <;>
    exact ⟨by linarith, by linarith, fun h0 => by linarith, by linarith,
      by linarith⟩

theorem calcMonthPaymentsAux_rowData (l : List Account) (sl ov : ℚ) :
    (calcMonthPaymentsAux l sl ov).map rowData = l.map accData := by
  induction l generalizing sl ov with
  | nil => rfl
  | cons a t ih =>
    simp only [calcMonthPaymentsAux, List.map_cons, allocStep_rowData, ih]

theorem calcMonthPaymentsAux_accounts (l : List Account) (sl ov : ℚ) :
    (calcMonthPaymentsAux l sl ov).map (fun p => p.account)
      = l.map (fun a => a.account) := by
  have h := congrArg (List.map Prod.fst) (calcMonthPaymentsAux_rowData l sl ov)
  simpa [List.map_map, Function.comp, rowData, accData] using h

theorem calcMonthPaymentsAux_bounds (l : List Account) (sl ov : ℚ)
    (hl : ∀ a ∈ l, a.balance ≤ 0 ∧ 0 ≤ a.min_payment)
    (hsl : 0 ≤ sl) (hov : 0 ≤ ov) :
    ∀ p ∈ calcMonthPaymentsAux l sl ov,
      0 ≤ p.total_payment ∧ p.total_payment ≤ -p.balance ∧
        (p.balance = 0 → p.total_payment = 0) := by
  induction l generalizing sl ov with
  | nil => intro p hp; simp [calcMonthPaymentsAux] at hp
  | cons a t ih =>
    intro p hp
    have ha := hl a (List.mem_cons_self a t)
    have hstep := allocStep_spec a sl ov ha.1 ha.2 hsl hov
    simp only [calcMonthPaymentsAux, List.mem_cons] at hp
    rcases hp with rfl | hp
    · exact ⟨hstep.1, by rw [allocStep_balance]; exact hstep.2.1,
        fun h0 => hstep.2.2.1 (by rw [allocStep_balance] at h0; exact h0)⟩
    · exact ih _ _ (fun b hb => hl b (List.mem_cons_of_mem a hb))
        hstep.2.2.2.1 hstep.2.2.2.2 p hp

theorem allocState_nonneg (l : List Account) (sl ov : ℚ)
    (hl : ∀ a ∈ l, a.balance ≤ 0 ∧ 0 ≤ a.min_payment)
    (hsl : 0 ≤ sl) (hov : 0 ≤ ov) :
    0 ≤ (allocState l sl ov).1 ∧ 0 ≤ (allocState l sl ov).2 := by
  induction l generalizing sl ov with
  | nil => exact ⟨hsl, hov⟩
  | cons a t ih =>
    have ha := hl a (List.mem_cons_self a t)
    have hstep := allocStep_spec a sl ov ha.1 ha.2 hsl hov
    exact ih _ _ (fun b hb => hl b (List.mem_cons_of_mem a hb))
      hstep.2.2.2.1 hstep.2.2.2.2

theorem calcMonthPaymentsAux_append (l₁ l₂ : List Account) (sl ov : ℚ) :
    calcMonthPaymentsAux (l₁ ++ l₂) sl ov =
      calcMonthPaymentsAux l₁ sl ov ++
        calcMonthPaymentsAux l₂ (allocState l₁ sl ov).1 (allocState l₁ sl ov).2 := by
  induction l₁ generalizing sl ov with
  | nil => rfl
  | cons a t ih =>
    simp only [List.cons_append, calcMonthPaymentsAux, allocState, List.append_eq]
    rw [ih]

/-! ### Balance updater lemmas -/

/-- The fields of an account row that `get_new_balances` never modifies. -/
def skel (a : Account) : String × ℚ × ℚ := (a.account, a.interest_rate, a.min_payment)

theorem updateBalance_nonpos (old total rate : ℚ) (hb : old ≤ 0)
    (h0 : 0 ≤ total) (h1 : total ≤ -old) (hr : 0 ≤ rate) :
    updateBalance old total rate ≤ 0 := by
  have hprod : 0 ≤ -old * (rate / 12) :=
    mul_nonneg (by linarith) (div_nonneg hr (by norm_num))
  simp only [updateBalance]
  split_ifs <;> linarith

theorem updateBalance_zero (rate : ℚ) : updateBalance 0 0 rate = 0 := by
  simp [updateBalance]

theorem setBalance_map_skel (l : List Account) (n : String) (b : ℚ) :
    (setBalance l n b).map skel = l.map skel := by
  simp only [setBalance, List.map_map]
  apply List.map_congr_left
  intro a _
  by_cases h : a.account = n <;> simp [Function.comp, h, skel]

theorem setBalance_balance_nonpos (l : List Account) (n : String) (v : ℚ)
    (hl : ∀ x ∈ l, x.balance ≤ 0) (hv : v ≤ 0) :
    ∀ b ∈ setBalance l n v, b.balance ≤ 0 := by
  intro b hb
  simp only [setBalance, List.mem_map] at hb
  obtain ⟨a, ha, rfl⟩ := hb
  by_cases h : a.account = n <;> simp [h, hv, hl a ha]

theorem setBalance_find? (l : List Account) (m : String) (b : ℚ) (n : String) :
    (setBalance l m b).find? (fun a => a.account = n) =
      (l.find? (fun a => a.account = n)).map
        (fun a => if a.account = m then { a with balance := b } else a) := by
  induction l with
  | nil => rfl
  | cons a t ih =>
    have hsb : setBalance (a :: t) m b =
        (if a.account = m then { a with balance := b } else a) ::
          setBalance t m b := rfl
    have hacc : ((if a.account = m then { a with balance := b } else a) :
        Account).account = a.account := by
      by_cases hm : a.account = m <;> simp [hm]
    by_cases h : a.account = n
    · rw [hsb, List.find?_cons_of_pos _ (by simp only [hacc]; simp [h]),
        List.find?_cons_of_pos _ (by simp [h])]
      simp
    · rw [hsb, List.find?_cons_of_neg _ (by simp only [hacc]; simp [h]),
        List.find?_cons_of_neg _ (by simp [h])]
      exact ih

theorem setBalance_find?_ne (l : List Account) (m : String) (b : ℚ)
    (n : String) (h : n ≠ m) :
    (setBalance l m b).find? (fun a => a.account = n) =
      l.find? (fun a => a.account = n) := by
  rw [setBalance_find?]
  cases hf : l.find? (fun a => a.account = n) with
  | none => rfl
  | some a =>
    have ha : a.account = n := by simpa using List.find?_some hf
    simp [ha, h]

theorem setBalance_find?_eq (l : List Account) (m : String) (b : ℚ) :
    (setBalance l m b).find? (fun a => a.account = m) =
      (l.find? (fun a => a.account = m)).map
        (fun a => { a with balance := b }) := by
  rw [setBalance_find?]
  cases hf : l.find? (fun a => a.account = m) with
  | none => rfl
  | some a =>
    have ha : a.account = m := by simpa using List.find?_some hf
    simp [ha]

theorem find?_map_skel_eq (l₁ l₂ : List Account)
    (h : l₁.map skel = l₂.map skel) (n : String) :
    (l₁.find? (fun a => a.account = n)).map skel =
      (l₂.find? (fun a => a.account = n)).map skel := by
  induction l₁ generalizing l₂ with
  | nil =>
    cases l₂ with
    | nil => rfl
    | cons b t => simp at h
  | cons a t ih =>
    cases l₂ with
    | nil => simp at h
    | cons b t₂ =>
      simp only [List.map_cons, List.cons.injEq] at h
      have hacc : a.account = b.account := congrArg Prod.fst h.1
      by_cases hn : a.account = n
      · rw [List.find?_cons_of_pos _ (by simp [hn]),
          List.find?_cons_of_pos _ (by simp [← hacc, hn])]
        simp [h.1]
      · rw [List.find?_cons_of_neg _ (by simp [hn]),
          List.find?_cons_of_neg _ (by simp [← hacc, hn])]
        exact ih t₂ h.2

theorem mem_skel_exists (l₁ l₂ : List Account)
    (h : l₁.map skel = l₂.map skel) (b : Account) (hb : b ∈ l₁) :
    ∃ a ∈ l₂, skel b = skel a := by
  have hm : skel b ∈ l₂.map skel := h ▸ List.mem_map_of_mem skel hb
  obtain ⟨a, ha, he⟩ := List.mem_map.1 hm
  exact ⟨a, ha, he.symm⟩

theorem find?_nodup_mem (l : List Account) (a : Account)
    (hnd : (l.map (fun x => x.account)).Nodup) (ha : a ∈ l) :
    l.find? (fun x => x.account = a.account) = some a := by
  induction l with
  | nil => simp at ha
  | cons b t ih =>
    simp only [List.map_cons, List.nodup_cons] at hnd
    rcases List.mem_cons.1 ha with rfl | ha'
    · exact List.find?_cons_of_pos _ (by simp)
    · have hb : ¬(b.account = a.account) := by
        intro he
        have hmem : a.account ∈ t.map (fun x => x.account) :=
          List.mem_map_of_mem _ ha'
        exact hnd.1 (he ▸ hmem)
      rw [List.find?_cons_of_neg _ (by simp [hb])]
      exact ih hnd.2 ha'

theorem applyPayments_map_skel (orig : List Account) :
    ∀ (ps : List PaymentRow) (cur out : List Account),
      applyPayments orig ps cur = some out → out.map skel = cur.map skel := by
  intro ps
  induction ps with
  | nil =>
    intro cur out h
    simp only [applyPayments, Option.some.injEq] at h
    rw [← h]
  | cons p rest ih =>
    intro cur out h
    simp only [applyPayments] at h
    cases h₁ : orig.find? (fun a => a.account = p.account) with
    | none => rw [h₁] at h; simp at h
    | some oldA =>
      cases h₂ : cur.find? (fun a => a.account = p.account) with
      | none => rw [h₁, h₂] at h; simp at h
      | some rateA =>
        rw [h₁, h₂] at h
        simp only at h
        rw [ih _ _ h, setBalance_map_skel]

theorem applyPayments_total (orig : List Account) :
    ∀ (ps : List PaymentRow) (cur : List Account),
      (∀ p ∈ ps, ∃ a ∈ orig, a.account = p.account) →
      cur.map skel = orig.map skel →
      ∃ out, applyPayments orig ps cur = some out := by
  intro ps
  induction ps with
  | nil => intro cur _ _; exact ⟨cur, rfl⟩
  | cons p rest ih =>
    intro cur hmem hskel
    obtain ⟨a, ha, hacc⟩ := hmem p (List.mem_cons_self p rest)
    have h₁ : orig.find? (fun x => x.account = p.account) ≠ none := by
      intro hn
      have := List.find?_eq_none.1 hn a ha
      simp [hacc] at this
    have h₂ : cur.find? (fun x => x.account = p.account) ≠ none := by
      intro hn
      have hmap := find?_map_skel_eq cur orig hskel p.account
      rw [hn] at hmap
      cases h₃ : orig.find? (fun x => x.account = p.account) with
      | none => exact h₁ h₃
      | some o => rw [h₃] at hmap; simp at hmap
    cases h₃ : orig.find? (fun x => x.account = p.account) with
    | none => exact absurd h₃ h₁
    | some oldA =>
      cases h₄ : cur.find? (fun x => x.account = p.account) with
      | none => exact absurd h₄ h₂
      | some rateA =>
        obtain ⟨out, hout⟩ := ih
          (setBalance cur p.account
            (updateBalance oldA.balance p.total_payment rateA.interest_rate))
          (fun q hq => hmem q (List.mem_cons_of_mem p hq))
          (by rw [setBalance_map_skel]; exact hskel)
        exact ⟨out, by simp only [applyPayments]; rw [h₃, h₄]; exact hout⟩

theorem applyPayments_balance_nonpos (orig : List Account)
    (hrate : ∀ a ∈ orig, 0 ≤ a.interest_rate) :
    ∀ (ps : List PaymentRow) (cur out : List Account),
      (∀ p ∈ ps, ∃ old, orig.find? (fun a => a.account = p.account) = some old ∧
        old.balance = p.balance ∧ 0 ≤ p.total_payment ∧
        p.total_payment ≤ -p.balance) →
      cur.map skel = orig.map skel →
      (∀ b ∈ cur, b.balance ≤ 0) →
      applyPayments orig ps cur = some out →
      ∀ b ∈ out, b.balance ≤ 0 := by
  intro ps
  induction ps with
  | nil =>
    intro cur out _ _ hcur h
    simp only [applyPayments, Option.some.injEq] at h
    rw [← h]; exact hcur
  | cons p rest ih =>
    intro cur out hp hskel hcur h
    obtain ⟨old, hfind, hob, ht0, ht1⟩ := hp p (List.mem_cons_self p rest)
    simp only [applyPayments] at h
    rw [hfind] at h
    cases h₂ : cur.find? (fun a => a.account = p.account) with
    | none => rw [h₂] at h; simp at h
    | some rateA =>
      rw [h₂] at h
      simp only at h
      have hrA : 0 ≤ rateA.interest_rate := by
        obtain ⟨a, ha, hsk⟩ := mem_skel_exists cur orig hskel rateA
          (List.mem_of_find?_eq_some h₂)
        have : rateA.interest_rate = a.interest_rate :=
          congrArg (fun s => s.2.1) hsk
        rw [this]; exact hrate a ha
      have hbal : old.balance ≤ 0 := by rw [hob]; linarith
      have hnb : updateBalance old.balance p.total_payment
          rateA.interest_rate ≤ 0 := by
        apply updateBalance_nonpos _ _ _ hbal ht0 _ hrA
        rw [hob]; exact ht1
      exact ih _ _ (fun q hq => hp q (List.mem_cons_of_mem p hq))
        (by rw [setBalance_map_skel]; exact hskel)
        (setBalance_balance_nonpos cur p.account _ hcur hnb) h

theorem applyPayments_find_untouched (orig : List Account) :
    ∀ (ps : List PaymentRow) (cur out : List Account) (n : String),
      (∀ q ∈ ps, q.account ≠ n) →
      applyPayments orig ps cur = some out →
      out.find? (fun a => a.account = n) = cur.find? (fun a => a.account = n) := by
  intro ps
  induction ps with
  | nil =>
    intro cur out n _ h
    simp only [applyPayments, Option.some.injEq] at h
    rw [← h]
  | cons p rest ih =>
    intro cur out n hn h
    simp only [applyPayments] at h
    cases h₁ : orig.find? (fun a => a.account = p.account) with
    | none => rw [h₁] at h; simp at h
    | some oldA =>
      cases h₂ : cur.find? (fun a => a.account = p.account) with
      | none => rw [h₁, h₂] at h; simp at h
      | some rateA =>
        rw [h₁, h₂] at h
        simp only at h
        rw [ih _ _ _ (fun q hq => hn q (List.mem_cons_of_mem p hq)) h]
        exact setBalance_find?_ne cur p.account _ n
          (fun he => hn p (List.mem_cons_self p rest) he.symm)

theorem applyPayments_find_nodup (orig : List Account) :
    ∀ (ps : List PaymentRow) (cur out : List Account),
      cur.map skel = orig.map skel →
      ((ps.map (fun p => p.account)).Nodup) →
      applyPayments orig ps cur = some out →
      ∀ p ∈ ps, ∀ old,
        orig.find? (fun a => a.account = p.account) = some old →
        ∃ b, out.find? (fun a => a.account = p.account) = some b ∧
          skel b = skel old ∧
          b.balance = updateBalance old.balance p.total_payment
            old.interest_rate := by
  intro ps
  induction ps with
  | nil => intro cur out _ _ _ p hp; simp at hp
  | cons q rest ih =>
    intro cur out hskel hnd h p hp old hold
    simp only [List.map_cons, List.nodup_cons] at hnd
    simp only [applyPayments] at h
    cases h₁ : orig.find? (fun a => a.account = q.account) with
    | none => rw [h₁] at h; simp at h
    | some oldQ =>
      cases h₂ : cur.find? (fun a => a.account = q.account) with
      | none => rw [h₁, h₂] at h; simp at h
      | some rateA =>
        rw [h₁, h₂] at h
        simp only at h
        rcases List.mem_cons.1 hp with rfl | hp'
        · -- p is the head; later rows never touch its name again
          have holdq : oldQ = old := by rw [h₁] at hold; exact Option.some.inj hold
          subst holdq
          have hsk : skel rateA = skel oldQ := by
            have hmap := find?_map_skel_eq cur orig hskel p.account
            rw [h₂, hold] at hmap
            simpa using hmap
          have hrate : rateA.interest_rate = oldQ.interest_rate :=
            congrArg (fun s => s.2.1) hsk
          have hrest : ∀ r ∈ rest, r.account ≠ p.account := by
            intro r hr he
            exact hnd.1 (he ▸ List.mem_map_of_mem _ hr)
          rw [applyPayments_find_untouched orig rest _ out p.account hrest h,
            setBalance_find?_eq, h₂]
          simp only [Option.map_some']
          refine ⟨_, rfl, ?_, ?_⟩
          · exact hsk
          · simp [hrate]
        · exact ih _ _ (by rw [setBalance_map_skel]; exact hskel) hnd.2 h p hp' old hold

/-! ### Ordering lemmas -/

theorem sort_values_desc_perm (r : Account → Account → Prop) [DecidableRel r]
    (l : List Account) : (sort_values_desc r l).Perm l :=
  (List.reverse_perm _).trans (List.perm_insertionSort r l)

theorem dumbSnowball_get_ordering_perm (l : List Account) :
    (dumbSnowball_get_ordering l).Perm l :=
  sort_values_desc_perm _ l

theorem interestRateSnowball_get_ordering_perm (l : List Account) :
    (interestRateSnowball_get_ordering l).Perm l :=
  sort_values_desc_perm _ l

theorem smartSnowball_get_ordering_perm (l : List Account) :
    (smartSnowball_get_ordering l).Perm l :=
  sort_values_desc_perm _ l

theorem smartSnowball_get_ordering_sorted (l : List Account) :
    (smartSnowball_get_ordering l).Pairwise (fun a b => SmartKeyLe b a) := by
  have h : (List.insertionSort SmartKeyLe l).Pairwise SmartKeyLe :=
    List.sorted_insertionSort SmartKeyLe l
  show (List.insertionSort SmartKeyLe l).reverse.Pairwise _
  exact List.pairwise_reverse.2 h

/-! ### Snowball increase lemmas -/

theorem get_snowball_increase_nonneg (accounts_df : List Account)
    (payments_df : List PaymentRow)
    (h : ∀ p ∈ payments_df, 0 ≤ p.min_payment) :
    0 ≤ get_snowball_increase accounts_df payments_df := by
  apply List.sum_nonneg
  intro x hx
  simp only [get_snowball_increase, get_paid_off_accounts_this_round,
    List.mem_map, List.mem_filter] at hx
  obtain ⟨p, ⟨⟨hp, _⟩, _⟩, rfl⟩ := hx
  exact h p hp

/-! ### Plan generator lemmas -/

theorem map_account_of_map_skel (l₁ l₂ : List Account)
    (h : l₁.map skel = l₂.map skel) :
    l₁.map (fun a => a.account) = l₂.map (fun a => a.account) := by
  have h2 := congrArg (List.map (fun s : String × ℚ × ℚ => s.1)) h
  simpa [List.map_map, Function.comp, skel] using h2

theorem mem_rowData_exists (payments : List PaymentRow) (ordered : List Account)
    (h : payments.map rowData = ordered.map accData) :
    ∀ p ∈ payments, ∃ a ∈ ordered, accData a = rowData p := by
  intro p hp
  have hm : rowData p ∈ ordered.map accData := h ▸ List.mem_map_of_mem rowData hp
  obtain ⟨a, ha, he⟩ := List.mem_map.1 hm
  exact ⟨a, ha, he⟩

theorem mem_accData_exists (payments : List PaymentRow) (ordered : List Account)
    (h : payments.map rowData = ordered.map accData) :
    ∀ a ∈ ordered, ∃ p ∈ payments, accData a = rowData p := by
  intro a ha
  have hm : accData a ∈ payments.map rowData := h ▸ List.mem_map_of_mem accData ha
  obtain ⟨p, hp, he⟩ := List.mem_map.1 hm
  exact ⟨p, hp, he.symm⟩

/-- One loop iteration of `generate_payoff_plan`, under the data model
invariants: it succeeds, the recorded month is faithful, every new balance
stays nonpositive, rows of zero-balance accounts pay zero, zero-balance
accounts stay at zero, and the snowball increase is nonnegative. -/
theorem planStep_spec (ordering : List Account → List Account)
    (accounts : List Account) (snowball : ℚ) (idx : ℕ)
    (hord : (ordering accounts).Perm accounts)
    (hinv : ∀ a ∈ accounts,
      a.balance ≤ 0 ∧ 0 ≤ a.min_payment ∧ 0 ≤ a.interest_rate)
    (hnodup : (accounts.map (fun a => a.account)).Nodup)
    (hsb : 0 ≤ snowball) :
    ∃ month tb si,
      planStep ordering accounts snowball idx = some (month, tb, si) ∧
      month.accounts = accounts ∧
      month.payments = calculate_month_payments (ordering accounts) snowball ∧
      month.new_balances.map skel = accounts.map skel ∧
      (∀ b ∈ month.new_balances, b.balance ≤ 0) ∧
      (∀ p ∈ month.payments, 0 ≤ p.total_payment ∧
        p.total_payment ≤ -p.balance ∧
        (p.balance = 0 → p.total_payment = 0) ∧ 0 ≤ p.min_payment) ∧
      (∀ a ∈ accounts, a.balance = 0 →
        ∃ b, month.new_balances.find? (fun x => x.account = a.account) = some b ∧
          b.balance = 0) ∧
      0 ≤ si := by
  have hordmem : ∀ a ∈ ordering accounts, a ∈ accounts :=
    fun a ha => hord.mem_iff.1 ha
  have hordinv : ∀ a ∈ ordering accounts, a.balance ≤ 0 ∧ 0 ≤ a.min_payment :=
    fun a ha => ⟨(hinv a (hordmem a ha)).1, (hinv a (hordmem a ha)).2.1⟩
  have hdata : (calculate_month_payments (ordering accounts) snowball).map rowData
      = (ordering accounts).map accData :=
    calcMonthPaymentsAux_rowData (ordering accounts) snowball 0
  have hbounds := calcMonthPaymentsAux_bounds (ordering accounts) snowball 0
    hordinv hsb le_rfl
  -- every payment row mirrors an account of the ordering input
  have hrow : ∀ p ∈ calculate_month_payments (ordering accounts) snowball,
      ∃ a ∈ accounts, a.account = p.account ∧ a.balance = p.balance ∧
        a.min_payment = p.min_payment := by
    intro p hp
    obtain ⟨a, ha, he⟩ :=
      mem_rowData_exists _ (ordering accounts) hdata p hp
    exact ⟨a, hordmem a ha, congrArg (fun s => s.1) he,
      congrArg (fun s => s.2.1) he, congrArg (fun s => s.2.2) he⟩
  have hmem : ∀ p ∈ calculate_month_payments (ordering accounts) snowball,
      ∃ a ∈ accounts, a.account = p.account := by
    intro p hp
    obtain ⟨a, ha, hacc, _, _⟩ := hrow p hp
    exact ⟨a, ha, hacc⟩
  obtain ⟨out, hout⟩ := applyPayments_total accounts
    (calculate_month_payments (ordering accounts) snowball) accounts hmem rfl
  have hout' : get_new_balances accounts
      (calculate_month_payments (ordering accounts) snowball) = some out := hout
  have hskel : out.map skel = accounts.map skel :=
    applyPayments_map_skel accounts _ accounts out hout
  -- the find?-level facts required by the balance updater lemmas
  have hP : ∀ p ∈ calculate_month_payments (ordering accounts) snowball,
      ∃ old, accounts.find? (fun a => a.account = p.account) = some old ∧
        old.balance = p.balance ∧ 0 ≤ p.total_payment ∧
        p.total_payment ≤ -p.balance := by
    intro p hp
    obtain ⟨a, ha, hacc, hbal, _⟩ := hrow p hp
    have hfind : accounts.find? (fun x => x.account = p.account) = some a := by
      have hf := find?_nodup_mem accounts a hnodup ha
      rw [← hacc]
      exact hf
    exact ⟨a, hfind, hbal, (hbounds p hp).1, (hbounds p hp).2.1⟩
  have hble : ∀ b ∈ out, b.balance ≤ 0 :=
    applyPayments_balance_nonpos accounts (fun a ha => (hinv a ha).2.2) _
      accounts out hP rfl (fun a ha => (hinv a ha).1) hout
  -- payment rows carry pairwise distinct account names
  have hpnames : (calculate_month_payments (ordering accounts) snowball).map
      (fun p => p.account) = (ordering accounts).map (fun a => a.account) :=
    calcMonthPaymentsAux_accounts (ordering accounts) snowball 0
  have hpnodup : ((calculate_month_payments (ordering accounts) snowball).map
      (fun p => p.account)).Nodup := by
    rw [hpnames]
    exact ((hord.map (fun a => a.account)).nodup_iff).2 hnodup
  have hzero : ∀ a ∈ accounts, a.balance = 0 →
      ∃ b, out.find? (fun x => x.account = a.account) = some b ∧
        b.balance = 0 := by
    intro a ha h0
    obtain ⟨p, hp, he⟩ := mem_accData_exists _ (ordering accounts) hdata a
      (hord.mem_iff.2 ha)
    have hacc : a.account = p.account := congrArg (fun s => s.1) he
    have hbal : a.balance = p.balance := congrArg (fun s => s.2.1) he
    have htz : p.total_payment = 0 :=
      (hbounds p hp).2.2 (by rw [← hbal, h0])
    have hfind : accounts.find? (fun x => x.account = p.account) = some a := by
      have hf := find?_nodup_mem accounts a hnodup ha
      rw [← hacc]
      exact hf
    obtain ⟨b, hb, _, hbv⟩ := applyPayments_find_nodup accounts _ accounts out
      rfl hpnodup hout p hp a hfind
    refine ⟨b, ?_, ?_⟩
    · rw [hacc]; exact hb
    · rw [hbv, htz, h0, updateBalance_zero]
  have hmin : ∀ p ∈ calculate_month_payments (ordering accounts) snowball,
      0 ≤ p.min_payment := by
    intro p hp
    obtain ⟨a, ha, _, _, hm⟩ := hrow p hp
    rw [← hm]
    exact (hinv a ha).2.1
  have hsi : 0 ≤ get_snowball_increase accounts
      (calculate_month_payments (ordering accounts) snowball) :=
    get_snowball_increase_nonneg _ _ hmin
  refine ⟨⟨accounts, idx, snowball,
      ((calculate_month_payments (ordering accounts) snowball).map
        (fun p => p.overflow)).sum,
      calculate_month_payments (ordering accounts) snowball,
      (((calculate_month_payments (ordering accounts) snowball).filter
          (fun p => decide (p.min_payment ≤ p.total_payment))).map
        (fun p => p.min_payment)).sum,
      ((calculate_month_payments (ordering accounts) snowball).map
        (fun p => p.total_payment)).sum, out⟩,
    (out.map (fun a => a.balance)).sum,
    get_snowball_increase accounts
      (calculate_month_payments (ordering accounts) snowball),
    ?_, rfl, rfl, hskel, hble,
    fun p hp => ⟨(hbounds p hp).1, (hbounds p hp).2.1, (hbounds p hp).2.2,
      hmin p hp⟩,
    hzero, hsi⟩
  simp only [planStep]
  rw [hout']

/-- Inversion of a successful `planStep`: the recorded month is built from
the ordering, the allocator and the balance updater exactly as the loop
body does. -/
theorem planStep_inv (ordering : List Account → List Account)
    (accounts : List Account) (snowball : ℚ) (idx : ℕ)
    (m : PlanMonth) (tb si : ℚ)
    (h : planStep ordering accounts snowball idx = some (m, tb, si)) :
    m.accounts = accounts ∧
    m.payments = calculate_month_payments (ordering accounts) snowball ∧
    get_new_balances accounts
      (calculate_month_payments (ordering accounts) snowball)
      = some m.new_balances ∧
    tb = (m.new_balances.map (fun a => a.balance)).sum ∧
    si = get_snowball_increase accounts m.payments := by
  simp only [planStep] at h
  cases hnb : get_new_balances accounts
      (calculate_month_payments (ordering accounts) snowball) with
  | none => rw [hnb] at h; simp at h
  | some nb =>
    rw [hnb] at h
    simp only [Option.some.injEq, Prod.mk.injEq] at h
    obtain ⟨hm, htb, hsi⟩ := h
    subst hm
    refine ⟨rfl, rfl, ?_, htb.symm, hsi.symm⟩
    simpa using hnb

theorem generate_payoff_plan_aux_zero (ordering : List Account → List Account)
    (snowball_inc : ℚ) (accounts : List Account) (snowball cum : ℚ)
    (monthsAcc : List PlanMonth) (n : ℕ) :
    generate_payoff_plan_aux ordering snowball_inc 0 accounts snowball cum
      monthsAcc n = none := rfl

theorem generate_payoff_plan_aux_succ_some
    (ordering : List Account → List Account) (snowball_inc : ℚ) (k : ℕ)
    (accounts : List Account) (snowball cum : ℚ) (monthsAcc : List PlanMonth)
    (n : ℕ) (month : PlanMonth) (tb si : ℚ)
    (hps : planStep ordering accounts snowball (n + 1) = some (month, tb, si)) :
    generate_payoff_plan_aux ordering snowball_inc (k + 1) accounts snowball
        cum monthsAcc n =
      if 0 ≤ tb then
        some (monthsAcc ++ [month], cum + month.total_payment, n + 1)
      else
        generate_payoff_plan_aux ordering snowball_inc k month.new_balances
          (snowball + si + snowball_inc) (cum + month.total_payment)
          (monthsAcc ++ [month]) (n + 1) := by
  simp only [generate_payoff_plan_aux]
  rw [hps]

theorem generate_payoff_plan_aux_succ_none
    (ordering : List Account → List Account) (snowball_inc : ℚ) (k : ℕ)
    (accounts : List Account) (snowball cum : ℚ) (monthsAcc : List PlanMonth)
    (n : ℕ)
    (hps : planStep ordering accounts snowball (n + 1) = none) :
    generate_payoff_plan_aux ordering snowball_inc (k + 1) accounts snowball
      cum monthsAcc n = none := by
  simp only [generate_payoff_plan_aux]
  rw [hps]

/-- The per-month conclusions of the no-overshoot invariant: every new
balance is nonpositive, every payment row of a zero-balance account pays
zero, and zero-balance accounts stay at zero in the month's new-balance
record. -/
def GoodMonth (m : PlanMonth) : Prop :=
  (∀ b ∈ m.new_balances, b.balance ≤ 0) ∧
  (∀ p ∈ m.payments, p.balance = 0 → p.total_payment = 0) ∧
  (∀ a ∈ m.accounts, a.balance = 0 →
    ∃ b, m.new_balances.find? (fun x => x.account = a.account) = some b ∧
      b.balance = 0)

theorem generate_payoff_plan_aux_good (ordering : List Account → List Account)
    (snowball_inc : ℚ) (hord : ∀ l, (ordering l).Perm l)
    (hinc : 0 ≤ snowball_inc) :
    ∀ (fuel : ℕ) (accounts : List Account) (snowball cum : ℚ)
      (monthsAcc : List PlanMonth) (n : ℕ) (res : List PlanMonth × ℚ × ℕ),
      (∀ a ∈ accounts,
        a.balance ≤ 0 ∧ 0 ≤ a.min_payment ∧ 0 ≤ a.interest_rate) →
      ((accounts.map (fun a => a.account)).Nodup) →
      0 ≤ snowball →
      generate_payoff_plan_aux ordering snowball_inc fuel accounts snowball
        cum monthsAcc n = some res →
      ∀ m ∈ res.1, m ∈ monthsAcc ∨ GoodMonth m := by
  intro fuel
  induction fuel with
  | zero =>
    intro accounts snowball cum ms n res _ _ _ h
    rw [generate_payoff_plan_aux_zero] at h
    simp at h
  | succ k ih =>
    intro accounts snowball cum ms n res hinv hnd hsb h
    obtain ⟨month, tb, si, hps, hacc, hpay, hskel, hble, hrows, hzero, hsi⟩ :=
      planStep_spec ordering accounts snowball (n + 1) (hord accounts) hinv
        hnd hsb
    have hgood : GoodMonth month := by
      refine ⟨hble, ?_, ?_⟩
      · intro p hp h0
        exact (hrows p hp).2.2.1 h0
      · intro a ha h0
        rw [hacc] at ha
        exact hzero a ha h0
    rw [generate_payoff_plan_aux_succ_some ordering snowball_inc k accounts
      snowball cum ms n month tb si hps] at h
    by_cases htb : (0:ℚ) ≤ tb
    · rw [if_pos htb] at h
      have hres := Option.some.inj h
      subst hres
      intro m hm
      rcases List.mem_append.1 hm with hm' | hm'
      · exact Or.inl hm'
      · rcases List.mem_singleton.1 hm' with rfl
        exact Or.inr hgood
    · rw [if_neg htb] at h
      -- re-establish the loop invariant for the next month
      have hinv' : ∀ a ∈ month.new_balances,
          a.balance ≤ 0 ∧ 0 ≤ a.min_payment ∧ 0 ≤ a.interest_rate := by
        intro b hb
        obtain ⟨a, ha, hsk⟩ := mem_skel_exists month.new_balances accounts
          hskel b hb
        refine ⟨hble b hb, ?_, ?_⟩
        · rw [show b.min_payment = a.min_payment from
            congrArg (fun s => s.2.2) hsk]
          exact (hinv a ha).2.1
        · rw [show b.interest_rate = a.interest_rate from
            congrArg (fun s => s.2.1) hsk]
          exact (hinv a ha).2.2
      have hnd' : (month.new_balances.map (fun a => a.account)).Nodup := by
        rw [map_account_of_map_skel month.new_balances accounts hskel]
        exact hnd
      have hsb' : 0 ≤ snowball + si + snowball_inc := by
        have := add_nonneg (add_nonneg hsb hsi) hinc
        linarith
      intro m hm
      rcases ih month.new_balances (snowball + si + snowball_inc)
          (cum + month.total_payment) (ms ++ [month]) (n + 1) res hinv' hnd'
          hsb' h m hm with hm' | hm'
      · rcases List.mem_append.1 hm' with hm'' | hm''
        · exact Or.inl hm''
        · rcases List.mem_singleton.1 hm'' with rfl
          exact Or.inr hgood
      · exact Or.inr hm'

theorem generate_payoff_plan_aux_rows (ordering : List Account → List Account)
    (snowball_inc : ℚ) (hord : ∀ l, (ordering l).Perm l) :
    ∀ (fuel : ℕ) (accounts : List Account) (snowball cum : ℚ)
      (monthsAcc : List PlanMonth) (n : ℕ) (res : List PlanMonth × ℚ × ℕ),
      generate_payoff_plan_aux ordering snowball_inc fuel accounts snowball
        cum monthsAcc n = some res →
      ∀ m ∈ res.1, m ∈ monthsAcc ∨
        ((m.payments.map (fun p => p.account)).Perm
          (m.accounts.map (fun a => a.account)) ∧
         m.new_balances.map skel = m.accounts.map skel) := by
  intro fuel
  induction fuel with
  | zero =>
    intro accounts snowball cum ms n res h
    rw [generate_payoff_plan_aux_zero] at h
    simp at h
  | succ k ih =>
    intro accounts snowball cum ms n res h
    cases hps : planStep ordering accounts snowball (n + 1) with
    | none =>
      rw [generate_payoff_plan_aux_succ_none ordering snowball_inc k accounts
        snowball cum ms n hps] at h
      simp at h
    | some r =>
      obtain ⟨month, tb, si⟩ := r
      rw [generate_payoff_plan_aux_succ_some ordering snowball_inc k accounts
        snowball cum ms n month tb si hps] at h
      obtain ⟨hmacc, hmpay, hmnb, _, _⟩ :=
        planStep_inv ordering accounts snowball (n + 1) month tb si hps
      have hmonth : (month.payments.map (fun p => p.account)).Perm
          (month.accounts.map (fun a => a.account)) ∧
          month.new_balances.map skel = month.accounts.map skel := by
        constructor
        · rw [hmpay, hmacc]
          simp only [calculate_month_payments]
          rw [calcMonthPaymentsAux_accounts (ordering accounts) snowball 0]
          exact (hord accounts).map (fun a => a.account)
        · rw [hmacc]
          exact applyPayments_map_skel accounts _ accounts month.new_balances
            hmnb
      by_cases htb : (0:ℚ) ≤ tb
      · rw [if_pos htb] at h
        have hres := Option.some.inj h
        subst hres
        intro m hm
        rcases List.mem_append.1 hm with hm' | hm'
        · exact Or.inl hm'
        · rcases List.mem_singleton.1 hm' with rfl
          exact Or.inr hmonth
      · rw [if_neg htb] at h
        intro m hm
        rcases ih month.new_balances (snowball + si + snowball_inc)
            (cum + month.total_payment) (ms ++ [month]) (n + 1) res h m hm
          with hm' | hm'
        · rcases List.mem_append.1 hm' with hm'' | hm''
          · exact Or.inl hm''
          · rcases List.mem_singleton.1 hm'' with rfl
            exact Or.inr hmonth
        · exact Or.inr hm'

theorem generate_payoff_plan_aux_last (ordering : List Account → List Account)
    (snowball_inc : ℚ) :
    ∀ (fuel : ℕ) (accounts : List Account) (snowball cum : ℚ)
      (monthsAcc : List PlanMonth) (n : ℕ) (res : List PlanMonth × ℚ × ℕ),
      generate_payoff_plan_aux ordering snowball_inc fuel accounts snowball
        cum monthsAcc n = some res →
      ∃ mL, res.1.getLast? = some mL ∧
        0 ≤ (mL.new_balances.map (fun a => a.balance)).sum := by
  intro fuel
  induction fuel with
  | zero =>
    intro accounts snowball cum ms n res h
    rw [generate_payoff_plan_aux_zero] at h
    simp at h
  | succ k ih =>
    intro accounts snowball cum ms n res h
    cases hps : planStep ordering accounts snowball (n + 1) with
    | none =>
      rw [generate_payoff_plan_aux_succ_none ordering snowball_inc k accounts
        snowball cum ms n hps] at h
      simp at h
    | some r =>
      obtain ⟨month, tb, si⟩ := r
      rw [generate_payoff_plan_aux_succ_some ordering snowball_inc k accounts
        snowball cum ms n month tb si hps] at h
      obtain ⟨_, _, _, htb, _⟩ :=
        planStep_inv ordering accounts snowball (n + 1) month tb si hps
      by_cases h0 : (0:ℚ) ≤ tb
      · rw [if_pos h0] at h
        have hres := Option.some.inj h
        subst hres
        refine ⟨month, ?_, ?_⟩
        · simp [List.getLast?_concat]
        · rw [← htb]; exact h0
      · rw [if_neg h0] at h
        exact ih month.new_balances (snowball + si + snowball_inc)
          (cum + month.total_payment) (ms ++ [month]) (n + 1) res h

/-! ### A non-converging input

One account with balance `-100`, minimum payment `0`, no snowball: every
month pays `0`, the balance never moves, and the `while True:` loop of
`generate_payoff_plan` never exits. -/

theorem payoffDiverges_step (idx : ℕ) :
    planStep dumbSnowball_get_ordering [⟨"A", 0, -100, 0⟩] 0 idx =
      some (⟨[⟨"A", 0, -100, 0⟩], idx, 0, 0, [⟨"A", -100, 0, 0, 0, 0⟩], 0, 0,
        [⟨"A", 0, -100, 0⟩]⟩, -100, 0) := by
  have h1 : dumbSnowball_get_ordering [⟨"A", 0, -100, 0⟩]
      = [⟨"A", 0, -100, 0⟩] := by
    simp [dumbSnowball_get_ordering, sort_values_desc]
  have h2 : calculate_month_payments [⟨"A", 0, -100, 0⟩] 0
      = [⟨"A", -100, 0, 0, 0, 0⟩] := by
    norm_num [calculate_month_payments, calcMonthPaymentsAux, allocStep,
      min_def, max_def]
  have h3 : get_new_balances [⟨"A", 0, -100, 0⟩] [⟨"A", -100, 0, 0, 0, 0⟩]
      = some [⟨"A", 0, -100, 0⟩] := by
    simp [get_new_balances, applyPayments, setBalance, updateBalance,
      List.find?]
  simp only [planStep, h1, h2, h3]
  norm_num [get_snowball_increase, get_paid_off_accounts_this_round]

theorem payoffDiverges_aux :
    ∀ (fuel : ℕ) (cum : ℚ) (monthsAcc : List PlanMonth) (n : ℕ),
      generate_payoff_plan_aux dumbSnowball_get_ordering 0 fuel
        [⟨"A", 0, -100, 0⟩] 0 cum monthsAcc n = none := by
  intro fuel
  induction fuel with
  | zero => intro cum ms n; rfl
  | succ k ih =>
    intro cum ms n
    rw [generate_payoff_plan_aux_succ_some dumbSnowball_get_ordering 0 k
      [⟨"A", 0, -100, 0⟩] 0 cum ms n _ (-100) 0 (payoffDiverges_step (n + 1))]
    rw [if_neg (by norm_num)]
    simp only [add_zero]
    exact ih _ _ _

theorem payoffDiverges (fuel : ℕ) :
    generate_payoff_plan [⟨"A", 0, -100, 0⟩] 0 0 dumbSnowball_get_ordering
      fuel = none := by
  simp only [generate_payoff_plan]
  rw [payoffDiverges_aux fuel 0 [] 0]
  rfl

/-! ### Claims -/

/-- C1 counterexample: the claim quantifies over every account list with
all balances negative and every snowball pool, with no constraint on the
minimum payments.  For the single account with balance `-100` and
minimum payment `-100` (the sign convention the spec itself uses in its
snowball-rollover scenario) and snowball pool `0`, the produced payment
row has `total_payment = -100`, which is negative — refuting
`total_payment >= 0` as stated. -/
theorem C1_allocator_cap_counterexample :
    calculate_month_payments [⟨"A", 0, -100, -100⟩] 0 =
      [⟨"A", -100, -100, 0, 0, -100⟩] ∧
    ((-100 : ℚ) < 0) ∧ ¬((0 : ℚ) ≤ (-100 : ℚ)) := by
  refine ⟨?_, by norm_num, by norm_num⟩
  norm_num [calculate_month_payments, calcMonthPaymentsAux, allocStep,
    min_def, max_def]

/-- C1 (amended): for every list of accounts with `balance < 0`, every
payment row produced by `calculate_month_payments` satisfies
`total_payment <= -balance`; and under the additional hypotheses that
every `min_payment` is nonnegative and the snowball pool is nonnegative
(the code's actual sign convention), also `total_payment >= 0`. -/
theorem C1_allocator_cap (accounts_df : List Account) (snowball : ℚ)
    (hb : ∀ a ∈ accounts_df, a.balance < 0 ∧ 0 ≤ a.min_payment)
    (hs : 0 ≤ snowball) :
    ∀ p ∈ calculate_month_payments accounts_df snowball,
      0 ≤ p.total_payment ∧ p.total_payment ≤ -p.balance := by
  intro p hp
  have h := calcMonthPaymentsAux_bounds accounts_df snowball 0
    (fun a ha => ⟨le_of_lt (hb a ha).1, (hb a ha).2⟩) hs le_rfl p hp
  exact ⟨h.1, h.2.1⟩

theorem C1_allocator_cap_witness :
    ((⟨"A", -100, 25, 0, 100, 100⟩ : PaymentRow) ∈
      calculate_month_payments [⟨"A", 0, -100, 25⟩] 100) ∧
    (0 : ℚ) ≤ (100 : ℚ) ∧ (100 : ℚ) ≤ -(-100 : ℚ) := by
  have hrows : calculate_month_payments [⟨"A", 0, -100, 25⟩] 100 =
      [⟨"A", -100, 25, 0, 100, 100⟩] := by
    norm_num [calculate_month_payments, calcMonthPaymentsAux, allocStep,
      min_def, max_def]
  have hmem : (⟨"A", -100, 25, 0, 100, 100⟩ : PaymentRow) ∈
      calculate_month_payments [⟨"A", 0, -100, 25⟩] 100 := by
    rw [hrows]; exact List.mem_singleton.2 rfl
  have h := C1_allocator_cap [⟨"A", 0, -100, 25⟩] 100
    (by intro a ha; rw [List.mem_singleton] at ha; subst ha
        exact ⟨by norm_num, by norm_num⟩)
    (by norm_num) _ hmem
  exact ⟨hmem, by simpa using h.1, by simpa using h.2⟩

/-- C2 counterexample: on the spec's own input, `SmartSnowball` puts the
interest-bearing account first and sorts the zero-rate group largest debt
first, because `sort_values(..., ascending=False)` reverses the sort-key
order: the output balances are `[-900, -200, -50]`, not the claimed
`[-50, -200, -900]`. -/
theorem C2_smart_ordering_counterexample :
    (smartSnowball_get_ordering
        [⟨"a", 0, -200, 0⟩, ⟨"b", 0, -50, 0⟩, ⟨"c", 22/100, -900, 0⟩]).map
      (fun a => a.balance) = [-900, -200, -50] ∧
    [(-900 : ℚ), -200, -50] ≠ [-50, -200, -900] := by
  constructor
  · norm_num [smartSnowball_get_ordering, sort_values_desc, SmartKeyLe,
      smart_key]
  · intro h
    simp only [List.cons.injEq] at h
    norm_num at h

/-- C2 (amended): `SmartSnowball.get_ordering` returns a permutation of
its input sorted so that later rows are `SmartKeyLe`-below earlier rows:
the positive-rate group (key `(1, balance)`) precedes the zero-rate group
(key `(0, -balance)`), positive-rate accounts are ordered by balance
descending, and zero-rate accounts by `-balance` descending (balance
ascending); on the spec's concrete input the order is
`[-900 (22%), -200 (0%), -50 (0%)]`. -/
theorem C2_smart_ordering :
    (∀ l : List Account,
      (smartSnowball_get_ordering l).Perm l ∧
      (smartSnowball_get_ordering l).Pairwise (fun a b => SmartKeyLe b a)) ∧
    (smartSnowball_get_ordering
        [⟨"a", 0, -200, 0⟩, ⟨"b", 0, -50, 0⟩, ⟨"c", 22/100, -900, 0⟩]).map
      (fun a => a.account) = ["c", "a", "b"] := by
  refine ⟨fun l => ⟨smartSnowball_get_ordering_perm l,
    smartSnowball_get_ordering_sorted l⟩, ?_⟩
  norm_num [smartSnowball_get_ordering, sort_values_desc, SmartKeyLe,
    smart_key]

/-- C3 counterexample: with the claim's own accounts A (balance `-100`,
min payment `-100`) and B (balance `-500`, min payment `-25`) and
snowball pool `0`, processed in order `[A, B]`, the rows do pay `-100`
and `-25` as the claim says — but then no row satisfies
`total_payment == -balance` (A's `-100` is not `100`), so the snowball
increase is `0`, not the claimed `100`. -/
theorem C3_snowball_rollover_counterexample :
    (calculate_month_payments
        [⟨"A", 0, -100, -100⟩, ⟨"B", 1/5, -500, -25⟩] 0).map
      (fun p => p.total_payment) = [-100, -25] ∧
    get_snowball_increase [⟨"A", 0, -100, -100⟩, ⟨"B", 1/5, -500, -25⟩]
      (calculate_month_payments
        [⟨"A", 0, -100, -100⟩, ⟨"B", 1/5, -500, -25⟩] 0) = 0 ∧
    (0 : ℚ) ≠ 100 := by
  refine ⟨?_, ?_, by norm_num⟩
  · norm_num [calculate_month_payments, calcMonthPaymentsAux, allocStep,
      min_def, max_def]
  · norm_num [calculate_month_payments, calcMonthPaymentsAux, allocStep,
      get_snowball_increase, get_paid_off_accounts_this_round, min_def,
      max_def]

/-- C3 (amended): `get_snowball_increase` sums the minimum payments of
exactly the rows with `total_payment = -balance` and `total_payment > 0`;
and in the rollover scenario stated with the code's sign convention
(minimum payments as positive outflows: A pays min `100`, B pays min
`25`), A's row pays `100`, B's pays `25`, and the snowball increase is
`100`. -/
theorem C3_snowball_rollover :
    (∀ (accounts_df : List Account) (payments_df : List PaymentRow),
      get_snowball_increase accounts_df payments_df =
        ((payments_df.filter (fun p =>
            decide (p.total_payment = -1 * p.balance ∧
              0 < p.total_payment))).map (fun p => p.min_payment)).sum) ∧
    (calculate_month_payments
        [⟨"A", 0, -100, 100⟩, ⟨"B", 1/5, -500, 25⟩] 0).map
      (fun p => p.total_payment) = [100, 25] ∧
    get_snowball_increase [⟨"A", 0, -100, 100⟩, ⟨"B", 1/5, -500, 25⟩]
      (calculate_month_payments
        [⟨"A", 0, -100, 100⟩, ⟨"B", 1/5, -500, 25⟩] 0) = 100 := by
  have fusion : ∀ l : List PaymentRow,
      (l.filter (fun p => decide (p.total_payment = -1 * p.balance))).filter
        (fun p => decide (0 < p.total_payment)) =
      l.filter (fun p => decide (p.total_payment = -1 * p.balance ∧
        0 < p.total_payment)) := by
    intro l
    induction l with
    | nil => rfl
    | cons p t ih =>
      simp only [List.filter_cons, decide_eq_true_eq]
      by_cases h1 : p.total_payment = -1 * p.balance
      · rw [if_pos h1]
        by_cases h2 : 0 < p.total_payment
        · rw [if_pos ⟨h1, h2⟩]
          simp only [List.filter_cons, decide_eq_true_eq]
          rw [if_pos h2, ih]
        · rw [if_neg (fun hc => h2 hc.2)]
          simp only [List.filter_cons, decide_eq_true_eq]
          rw [if_neg h2, ih]
      · rw [if_neg h1, if_neg (fun hc => h1 hc.1), ih]
  refine ⟨?_, ?_, ?_⟩
  · intro accounts_df payments_df
    simp only [get_snowball_increase, get_paid_off_accounts_this_round]
    rw [fusion]
  · norm_num [calculate_month_payments, calcMonthPaymentsAux, allocStep,
      min_def, max_def]
  · norm_num [calculate_month_payments, calcMonthPaymentsAux, allocStep,
      get_snowball_increase, get_paid_off_accounts_this_round, min_def,
      max_def]

/-- C7 counterexample: the claim asserts `overflow <= 0` at the start of
every account for every input.  With accounts A (balance `-50`, min
payment `100`) and B (balance `-60`, min payment `0`) and snowball `0`,
the overflow accumulator equals `50 > 0` when B starts (A's capped
leftover is added back), and B's recorded `overflow` column is `50`. -/
theorem C7_overflow_sign_counterexample :
    calculate_month_payments [⟨"A", 0, -50, 100⟩, ⟨"B", 0, -60, 0⟩] 0 =
      [⟨"A", -50, 100, 0, 0, 50⟩, ⟨"B", -60, 0, 50, 0, 50⟩] ∧
    allocState [⟨"A", 0, -50, 100⟩] 0 0 = (0, 50) ∧
    ¬((50 : ℚ) ≤ 0) := by
  refine ⟨?_, ?_, by norm_num⟩
  · norm_num [calculate_month_payments, calcMonthPaymentsAux, allocStep,
      min_def, max_def]
  · norm_num [allocState, allocStep, min_def, max_def]

/-- C7 (amended): the overflow accumulator starts at 0, and — when every
balance is nonpositive, every minimum payment is nonnegative and the
snowball pool is nonnegative — it is non-NEGATIVE (not nonpositive) at
the start of processing every account: splitting the account list at any
point, `calculate_month_payments` is the concatenation of the allocator
run on the prefix and the run on the suffix started from the
`allocState` of the prefix, whose overflow component is `≥ 0`. -/
theorem C7_overflow_sign (accounts_df : List Account) (snowball : ℚ)
    (hb : ∀ a ∈ accounts_df, a.balance ≤ 0 ∧ 0 ≤ a.min_payment)
    (hs : 0 ≤ snowball) :
    ∀ l₁ l₂ : List Account, accounts_df = l₁ ++ l₂ →
      calculate_month_payments accounts_df snowball =
        calcMonthPaymentsAux l₁ snowball 0 ++
          calcMonthPaymentsAux l₂ (allocState l₁ snowball 0).1
            (allocState l₁ snowball 0).2 ∧
      0 ≤ (allocState l₁ snowball 0).2 := by
  intro l₁ l₂ hsplit
  constructor
  · rw [hsplit]
    simp only [calculate_month_payments]
    exact calcMonthPaymentsAux_append l₁ l₂ snowball 0
  · refine (allocState_nonneg l₁ snowball 0 ?_ hs le_rfl).2
    intro a ha
    exact hb a (hsplit ▸ List.mem_append_left l₂ ha)

theorem C7_overflow_sign_witness :
    0 ≤ (allocState [⟨"A", 0, -50, 100⟩] 0 0).2 :=
  (C7_overflow_sign [⟨"A", 0, -50, 100⟩, ⟨"B", 0, -60, 0⟩] 0
    (by intro a ha
        rcases List.mem_cons.1 ha with rfl | ha'
        · exact ⟨by norm_num, by norm_num⟩
        · rcases List.mem_singleton.1 ha' with rfl
          exact ⟨by norm_num, by norm_num⟩)
    le_rfl [⟨"A", 0, -50, 100⟩] [⟨"B", 0, -60, 0⟩] rfl).2

/-- C8: `reconstruct_balance_at_date` returns the current balance minus
the sum of the amounts of exactly the transactions dated strictly after
the target date; the result is invariant under permutation of the
transaction list, and when no transaction is dated after the target date
it returns the current balance unchanged. -/
theorem C8_reconstruction_round_trip (current_balance : ℚ)
    (transactions : List Transaction) (target_date : ℤ) :
    reconstruct_balance_at_date current_balance transactions target_date =
      current_balance -
        ((transactions.filter (fun t => decide (target_date < t.date))).map
          (fun t => t.amount)).sum ∧
    (∀ transactions' : List Transaction, transactions.Perm transactions' →
      reconstruct_balance_at_date current_balance transactions target_date =
        reconstruct_balance_at_date current_balance transactions'
          target_date) ∧
    ((∀ t ∈ transactions, t.date ≤ target_date) →
      reconstruct_balance_at_date current_balance transactions target_date =
        current_balance) := by
  have key : ∀ (l : List Transaction) (c : ℚ),
      reconstruct_balance_at_date c l target_date =
        c - ((l.filter (fun t => decide (target_date < t.date))).map
          (fun t => t.amount)).sum := by
    intro l
    induction l with
    | nil => intro c; simp [reconstruct_balance_at_date]
    | cons t rest ih =>
      intro c
      by_cases h : target_date < t.date
      · have hstep : reconstruct_balance_at_date c (t :: rest) target_date =
            reconstruct_balance_at_date (c - t.amount) rest target_date := by
          simp [reconstruct_balance_at_date, List.foldl_cons, h]
        rw [hstep, ih (c - t.amount), List.filter_cons]
        simp [h]
        ring
      · have hstep : reconstruct_balance_at_date c (t :: rest) target_date =
            reconstruct_balance_at_date c rest target_date := by
          simp [reconstruct_balance_at_date, List.foldl_cons, h]
        rw [hstep, ih c, List.filter_cons]
        simp [h]
  refine ⟨key transactions current_balance, ?_, ?_⟩
  · intro txns' hperm
    rw [key transactions current_balance, key txns' current_balance]
    have hsum : ((transactions.filter
          (fun t => decide (target_date < t.date))).map
        (fun t => t.amount)).sum =
        ((txns'.filter (fun t => decide (target_date < t.date))).map
          (fun t => t.amount)).sum :=
      ((hperm.filter _).map _).sum_eq
    rw [hsum]
  · intro hall
    rw [key transactions current_balance]
    have hnil : transactions.filter (fun t => decide (target_date < t.date))
        = [] := by
      rw [List.filter_eq_nil_iff]
      intro t ht
      simpa using not_lt.2 (hall t ht)
    rw [hnil]
    simp

theorem C8_reconstruction_round_trip_witness :
    reconstruct_balance_at_date 100 [⟨2, 7⟩] 3 = 100 :=
  (C8_reconstruction_round_trip 100 [⟨2, 7⟩] 3).2.2
    (by intro t ht
        rcases List.mem_singleton.1 ht with rfl
        norm_num)

/-- C9 counterexample: the orderings are not stable.  Accounts `a` and
`b` tie on the `lowest_balance` sort key (both balances are `-50`), yet
`DumbSnowball.get_ordering` returns them in reversed input order, because
pandas realizes a descending sort by reversing the ascending argsort. -/
theorem C9_ordering_stability_counterexample :
    dumbSnowball_get_ordering [⟨"a", 1/10, -50, 0⟩, ⟨"b", 1/5, -50, 0⟩] =
      [⟨"b", 1/5, -50, 0⟩, ⟨"a", 1/10, -50, 0⟩] ∧
    (⟨"a", 1/10, -50, 0⟩ : Account) ≠ ⟨"b", 1/5, -50, 0⟩ := by
  constructor
  · norm_num [dumbSnowball_get_ordering, sort_values_desc]
  · intro h
    simp only [Account.mk.injEq] at h
    exact absurd h.1 (by simp)

/-- C9 (amended): each of the three strategy orderings returns a
permutation of its input — no account dropped or duplicated — but ties
are reversed rather than kept in input order. -/
theorem C9_ordering_totality (l : List Account) :
    (dumbSnowball_get_ordering l).Perm l ∧
    (interestRateSnowball_get_ordering l).Perm l ∧
    (smartSnowball_get_ordering l).Perm l :=
  ⟨dumbSnowball_get_ordering_perm l, interestRateSnowball_get_ordering_perm l,
    smartSnowball_get_ordering_perm l⟩

/-! ### Concrete plan evaluations used by the remaining claims -/

/-- A two-account run in which account `Z` starts already at balance `0`:
one month suffices, and `Z` still gets a payment row (with
`total_payment = 0`) because the loop never filters paid-off accounts. -/
theorem evalPlanZB :
    generate_payoff_plan [⟨"Z", 0, 0, 25⟩, ⟨"B", 0, -100, 100⟩] 0 0
        dumbSnowball_get_ordering 2 =
      some ⟨[⟨[⟨"Z", 0, 0, 25⟩, ⟨"B", 0, -100, 100⟩], 1, 0, 0,
          [⟨"Z", 0, 25, 0, 0, 0⟩, ⟨"B", -100, 100, 0, 0, 100⟩], 100, 100,
          [⟨"Z", 0, 0, 25⟩, ⟨"B", 0, 0, 100⟩]⟩], -100, 100, 1⟩ := by
  have hord : dumbSnowball_get_ordering [⟨"Z", 0, 0, 25⟩, ⟨"B", 0, -100, 100⟩]
      = [⟨"Z", 0, 0, 25⟩, ⟨"B", 0, -100, 100⟩] := by
    norm_num [dumbSnowball_get_ordering, sort_values_desc]
  have hrows : calculate_month_payments
        [⟨"Z", 0, 0, 25⟩, ⟨"B", 0, -100, 100⟩] 0
      = [⟨"Z", 0, 25, 0, 0, 0⟩, ⟨"B", -100, 100, 0, 0, 100⟩] := by
    norm_num [calculate_month_payments, calcMonthPaymentsAux, allocStep,
      min_def, max_def]
  have hnew : get_new_balances [⟨"Z", 0, 0, 25⟩, ⟨"B", 0, -100, 100⟩]
        [⟨"Z", 0, 25, 0, 0, 0⟩, ⟨"B", -100, 100, 0, 0, 100⟩]
      = some [⟨"Z", 0, 0, 25⟩, ⟨"B", 0, 0, 100⟩] := by
    simp [get_new_balances, applyPayments, setBalance, updateBalance,
      List.find?]
  have hstep : planStep dumbSnowball_get_ordering
        [⟨"Z", 0, 0, 25⟩, ⟨"B", 0, -100, 100⟩] 0 1
      = some (⟨[⟨"Z", 0, 0, 25⟩, ⟨"B", 0, -100, 100⟩], 1, 0, 0,
          [⟨"Z", 0, 25, 0, 0, 0⟩, ⟨"B", -100, 100, 0, 0, 100⟩], 100, 100,
          [⟨"Z", 0, 0, 25⟩, ⟨"B", 0, 0, 100⟩]⟩, 0, 100) := by
    norm_num [planStep, hord, hrows, hnew, get_snowball_increase,
      get_paid_off_accounts_this_round]
  norm_num [generate_payoff_plan, generate_payoff_plan_aux, hstep]

/-- A converging single-account run: balance `-100`, minimum payment
`100`, paid off in one month with the balance landing exactly at `0`. -/
theorem evalPlanA :
    generate_payoff_plan [⟨"A", 0, -100, 100⟩] 0 0
        dumbSnowball_get_ordering 2 =
      some ⟨[⟨[⟨"A", 0, -100, 100⟩], 1, 0, 0,
          [⟨"A", -100, 100, 0, 0, 100⟩], 100, 100,
          [⟨"A", 0, 0, 100⟩]⟩], -100, 100, 1⟩ := by
  have hord : dumbSnowball_get_ordering [⟨"A", 0, -100, 100⟩]
      = [⟨"A", 0, -100, 100⟩] := by
    norm_num [dumbSnowball_get_ordering, sort_values_desc]
  have hrows : calculate_month_payments [⟨"A", 0, -100, 100⟩] 0
      = [⟨"A", -100, 100, 0, 0, 100⟩] := by
    norm_num [calculate_month_payments, calcMonthPaymentsAux, allocStep,
      min_def, max_def]
  have hnew : get_new_balances [⟨"A", 0, -100, 100⟩]
        [⟨"A", -100, 100, 0, 0, 100⟩] = some [⟨"A", 0, 0, 100⟩] := by
    norm_num [get_new_balances, applyPayments, setBalance, updateBalance,
      List.find?]
  have hstep : planStep dumbSnowball_get_ordering [⟨"A", 0, -100, 100⟩] 0 1
      = some (⟨[⟨"A", 0, -100, 100⟩], 1, 0, 0,
          [⟨"A", -100, 100, 0, 0, 100⟩], 100, 100, [⟨"A", 0, 0, 100⟩]⟩,
        0, 100) := by
    norm_num [planStep, hord, hrows, hnew, get_snowball_increase,
      get_paid_off_accounts_this_round]
  norm_num [generate_payoff_plan, generate_payoff_plan_aux, hstep]

/-- A single-account run with a negative interest rate: the balance
overshoots to `+100` in one month. -/
theorem evalPlanX :
    generate_payoff_plan [⟨"X", -24, -100, 0⟩] 0 0
        dumbSnowball_get_ordering 1 =
      some ⟨[⟨[⟨"X", -24, -100, 0⟩], 1, 0, 0, [⟨"X", -100, 0, 0, 0, 0⟩],
          0, 0, [⟨"X", -24, 100, 0⟩]⟩], -100, 0, 1⟩ := by
  have hord : dumbSnowball_get_ordering [⟨"X", -24, -100, 0⟩]
      = [⟨"X", -24, -100, 0⟩] := by
    norm_num [dumbSnowball_get_ordering, sort_values_desc]
  have hrows : calculate_month_payments [⟨"X", -24, -100, 0⟩] 0
      = [⟨"X", -100, 0, 0, 0, 0⟩] := by
    norm_num [calculate_month_payments, calcMonthPaymentsAux, allocStep,
      min_def, max_def]
  have hnew : get_new_balances [⟨"X", -24, -100, 0⟩]
        [⟨"X", -100, 0, 0, 0, 0⟩] = some [⟨"X", -24, 100, 0⟩] := by
    norm_num [get_new_balances, applyPayments, setBalance, updateBalance,
      List.find?]
  have hstep : planStep dumbSnowball_get_ordering [⟨"X", -24, -100, 0⟩] 0 1
      = some (⟨[⟨"X", -24, -100, 0⟩], 1, 0, 0, [⟨"X", -100, 0, 0, 0, 0⟩],
          0, 0, [⟨"X", -24, 100, 0⟩]⟩, 100, 0) := by
    norm_num [planStep, hord, hrows, hnew, get_snowball_increase,
      get_paid_off_accounts_this_round]
  norm_num [generate_payoff_plan, generate_payoff_plan_aux, hstep]

/-- C4 counterexample: in this concrete plan the account `Z` enters the
month with balance `0` (not `< 0`), yet it is passed to the ordering and
the allocator: the recorded month's payments contain a row for `Z`
(first, even, under the `lowest_balance` ordering), refuting the claim
that accounts with balance `>= 0` vanish from ordering and allocation. -/
theorem C4_active_filtering_counterexample :
    generate_payoff_plan [⟨"Z", 0, 0, 25⟩, ⟨"B", 0, -100, 100⟩] 0 0
        dumbSnowball_get_ordering 2 =
      some ⟨[⟨[⟨"Z", 0, 0, 25⟩, ⟨"B", 0, -100, 100⟩], 1, 0, 0,
          [⟨"Z", 0, 25, 0, 0, 0⟩, ⟨"B", -100, 100, 0, 0, 100⟩], 100, 100,
          [⟨"Z", 0, 0, 25⟩, ⟨"B", 0, 0, 100⟩]⟩], -100, 100, 1⟩ ∧
    ¬((0 : ℚ) < 0) :=
  ⟨evalPlanZB, by norm_num⟩

/-- C4 (amended): `generate_payoff_plan` performs no balance filtering at
all: every month, the whole current account frame — including accounts
with balance `>= 0` — is passed to the ordering strategy and to the
allocator, so the month's payment rows are exactly one row per account
(a name permutation of the month's accounts), and every account is
retained (at an unchanged name/rate/min-payment skeleton) in the month's
new-balance record. -/
theorem C4_active_filtering (accounts_df : List Account)
    (snowball_start snowball_inc : ℚ)
    (ordering : List Account → List Account) (fuel : ℕ) (plan : PayoffPlan)
    (hord : ∀ l, (ordering l).Perm l)
    (hrun : generate_payoff_plan accounts_df snowball_start snowball_inc
      ordering fuel = some plan) :
    ∀ m ∈ plan.months,
      (m.payments.map (fun p => p.account)).Perm
        (m.accounts.map (fun a => a.account)) ∧
      m.new_balances.map skel = m.accounts.map skel := by
  simp only [generate_payoff_plan] at hrun
  cases haux : generate_payoff_plan_aux ordering snowball_inc fuel
      accounts_df snowball_start 0 [] 0 with
  | none => rw [haux] at hrun; simp at hrun
  | some res =>
    rw [haux] at hrun
    simp only [Option.map_some', Option.some.injEq] at hrun
    subst hrun
    intro m hm
    have hmem : m ∈ res.1 := hm
    rcases generate_payoff_plan_aux_rows ordering snowball_inc hord fuel
        accounts_df snowball_start 0 [] 0 res haux m hmem with h | h
    · exact absurd h (List.not_mem_nil m)
    · exact h

theorem C4_active_filtering_witness :
    (["Z", "B"] : List String).Perm ["Z", "B"] ∧
    ([⟨"Z", 0, 0, 25⟩, ⟨"B", 0, 0, 100⟩] : List Account).map skel =
      ([⟨"Z", 0, 0, 25⟩, ⟨"B", 0, -100, 100⟩] : List Account).map skel := by
  have h := C4_active_filtering [⟨"Z", 0, 0, 25⟩, ⟨"B", 0, -100, 100⟩] 0 0
    dumbSnowball_get_ordering 2
    ⟨[⟨[⟨"Z", 0, 0, 25⟩, ⟨"B", 0, -100, 100⟩], 1, 0, 0,
        [⟨"Z", 0, 25, 0, 0, 0⟩, ⟨"B", -100, 100, 0, 0, 100⟩], 100, 100,
        [⟨"Z", 0, 0, 25⟩, ⟨"B", 0, 0, 100⟩]⟩], -100, 100, 1⟩
    dumbSnowball_get_ordering_perm evalPlanZB
    ⟨[⟨"Z", 0, 0, 25⟩, ⟨"B", 0, -100, 100⟩], 1, 0, 0,
      [⟨"Z", 0, 25, 0, 0, 0⟩, ⟨"B", -100, 100, 0, 0, 100⟩], 100, 100,
      [⟨"Z", 0, 0, 25⟩, ⟨"B", 0, 0, 100⟩]⟩
    (List.mem_singleton.2 rfl)
  exact ⟨h.1, h.2⟩

/-- C5: the balance updater.  For accounts with pairwise distinct names
and payment rows with pairwise distinct names, a successful
`get_new_balances` gives, for each account matched by a payment row:
unchanged name, interest rate and minimum payment, and a new balance of
`old_balance + total_payment` when `old_balance + total_payment >= 0`
(zero interest), otherwise
`old_balance + (total_payment - (-old_balance * (annual_rate / 12)))`. -/
theorem C5_balance_update (accounts_df : List Account)
    (payments_df : List PaymentRow) (out : List Account)
    (hnd : (accounts_df.map (fun a => a.account)).Nodup)
    (hpnd : (payments_df.map (fun p => p.account)).Nodup)
    (hrun : get_new_balances accounts_df payments_df = some out)
    (p : PaymentRow) (hp : p ∈ payments_df)
    (a : Account) (ha : a ∈ accounts_df) (hname : a.account = p.account) :
    ∃ b, out.find? (fun x => x.account = p.account) = some b ∧
      b.account = a.account ∧ b.interest_rate = a.interest_rate ∧
      b.min_payment = a.min_payment ∧
      (0 ≤ a.balance + p.total_payment →
        b.balance = a.balance + p.total_payment) ∧
      (a.balance + p.total_payment < 0 →
        b.balance = a.balance +
          (p.total_payment - (-a.balance * (a.interest_rate / 12)))) := by
  have hfind : accounts_df.find? (fun x => x.account = p.account) = some a := by
    have hf := find?_nodup_mem accounts_df a hnd ha
    rw [← hname]
    exact hf
  obtain ⟨b, hb, hsk, hbal⟩ := applyPayments_find_nodup accounts_df
    payments_df accounts_df out rfl hpnd hrun p hp a hfind
  refine ⟨b, hb, congrArg (fun s => s.1) hsk, congrArg (fun s => s.2.1) hsk,
    congrArg (fun s => s.2.2) hsk, ?_, ?_⟩
  · intro hge
    rw [hbal]
    simp [updateBalance, hge]
  · intro hlt
    rw [hbal]
    simp [updateBalance, not_le.2 hlt]

theorem C5_balance_update_witness :
    get_new_balances [⟨"A", 1/5, -100, 25⟩] [⟨"A", -100, 25, 0, 0, 25⟩] =
      some [⟨"A", 1/5, -230/3, 25⟩] ∧
    ([⟨"A", 1/5, -230/3, 25⟩] : List Account).find?
      (fun x => x.account = "A") = some ⟨"A", 1/5, -230/3, 25⟩ ∧
    ((-230/3 : ℚ) = -100 + (25 - (-(-100 : ℚ) * ((1/5 : ℚ) / 12)))) := by
  have hrun : get_new_balances [⟨"A", 1/5, -100, 25⟩]
      [⟨"A", -100, 25, 0, 0, 25⟩] = some [⟨"A", 1/5, -230/3, 25⟩] := by
    norm_num [get_new_balances, applyPayments, setBalance, updateBalance,
      List.find?]
  obtain ⟨b, hb, _, _, _, _, hlt⟩ := C5_balance_update
    [⟨"A", 1/5, -100, 25⟩] [⟨"A", -100, 25, 0, 0, 25⟩]
    [⟨"A", 1/5, -230/3, 25⟩] (by simp) (by simp) hrun
    ⟨"A", -100, 25, 0, 0, 25⟩ (List.mem_singleton.2 rfl)
    ⟨"A", 1/5, -100, 25⟩ (List.mem_singleton.2 rfl) rfl
  have hbval := hlt (by norm_num)
  have hfind : ([⟨"A", 1/5, -230/3, 25⟩] : List Account).find?
      (fun x => x.account = "A") = some ⟨"A", 1/5, -230/3, 25⟩ := by
    simp [List.find?]
  have hbeq : b = ⟨"A", 1/5, -230/3, 25⟩ := by
    have := hb.symm.trans hfind
    exact Option.some.inj this
  refine ⟨hrun, hfind, ?_⟩
  rw [hbeq] at hbval
  simpa using hbval

/-- C6 counterexample: on the single account with balance `-100`,
minimum payment `0` and no snowball, payoff is never reached.  After
5000 iterations — beyond any "few thousand months" safety cap — the
generator has neither produced a plan nor raised any error: the Python
loop simply runs forever (the code has no cap and no NonConvergence
error path). -/
theorem C6_nonconvergence_counterexample :
    generate_payoff_plan [⟨"A", 0, -100, 0⟩] 0 0 dumbSnowball_get_ordering
      5000 = none :=
  payoffDiverges 5000

/-- C6 (amended): the month loop of `generate_payoff_plan` has no safety
iteration cap and no NonConvergence error.  Whenever it returns a plan,
it is because the final month's total new balance reached `>= 0`; and on
the non-converging input above it returns nothing at every fuel bound —
the loop runs unboundedly. -/
theorem C6_nonconvergence :
    (∀ (accounts_df : List Account) (snowball_start snowball_inc : ℚ)
        (ordering : List Account → List Account) (fuel : ℕ)
        (plan : PayoffPlan),
      generate_payoff_plan accounts_df snowball_start snowball_inc ordering
        fuel = some plan →
      ∃ mL, plan.months.getLast? = some mL ∧
        0 ≤ (mL.new_balances.map (fun a => a.balance)).sum) ∧
    (∀ fuel : ℕ, generate_payoff_plan [⟨"A", 0, -100, 0⟩] 0 0
      dumbSnowball_get_ordering fuel = none) := by
  constructor
  · intro accounts_df s i ordering fuel plan hrun
    simp only [generate_payoff_plan] at hrun
    cases haux : generate_payoff_plan_aux ordering i fuel accounts_df s 0
        [] 0 with
    | none => rw [haux] at hrun; simp at hrun
    | some res =>
      rw [haux] at hrun
      simp only [Option.map_some', Option.some.injEq] at hrun
      subst hrun
      obtain ⟨mL, hL, hge⟩ := generate_payoff_plan_aux_last ordering i fuel
        accounts_df s 0 [] 0 res haux
      exact ⟨mL, hL, hge⟩
  · exact payoffDiverges

theorem C6_nonconvergence_witness :
    ∃ mL, (⟨[⟨[⟨"A", 0, -100, 100⟩], 1, 0, 0,
        [⟨"A", -100, 100, 0, 0, 100⟩], 100, 100, [⟨"A", 0, 0, 100⟩]⟩],
          -100, 100, 1⟩ : PayoffPlan).months.getLast? = some mL ∧
      0 ≤ (mL.new_balances.map (fun a => a.balance)).sum :=
  C6_nonconvergence.1 [⟨"A", 0, -100, 100⟩] 0 0 dumbSnowball_get_ordering 2
    _ evalPlanA

/-- C10 counterexample: the claim's hypotheses do not constrain the
interest rate.  With balance `-100 <= 0`, minimum payment `0 >= 0` and
zero snowball, but interest rate `-24`, the plan's first (and only)
month records a new balance of `+100 > 0`: the balance overshoots zero. -/
theorem C10_balance_overshoot_counterexample :
    generate_payoff_plan [⟨"X", -24, -100, 0⟩] 0 0
        dumbSnowball_get_ordering 1 =
      some ⟨[⟨[⟨"X", -24, -100, 0⟩], 1, 0, 0, [⟨"X", -100, 0, 0, 0, 0⟩],
          0, 0, [⟨"X", -24, 100, 0⟩]⟩], -100, 0, 1⟩ ∧
    ¬((100 : ℚ) ≤ 0) :=
  ⟨evalPlanX, by norm_num⟩

/-- C10 (amended): balances never overshoot zero, additionally assuming
nonnegative interest rates and pairwise distinct account names.  Under
these hypotheses, in every month of a generated plan every new balance is
`<= 0`, every payment row of a zero-balance account has
`total_payment = 0`, and an account at balance exactly `0` stays at `0`
in the month's new-balance record (hence, by induction over the recorded
months, in every later month). -/
theorem C10_balance_no_overshoot (accounts_df : List Account)
    (snowball_start snowball_inc : ℚ)
    (ordering : List Account → List Account) (fuel : ℕ) (plan : PayoffPlan)
    (hord : ∀ l, (ordering l).Perm l)
    (hinv : ∀ a ∈ accounts_df,
      a.balance ≤ 0 ∧ 0 ≤ a.min_payment ∧ 0 ≤ a.interest_rate)
    (hnd : (accounts_df.map (fun a => a.account)).Nodup)
    (h0 : 0 ≤ snowball_start) (h1 : 0 ≤ snowball_inc)
    (hrun : generate_payoff_plan accounts_df snowball_start snowball_inc
      ordering fuel = some plan) :
    ∀ m ∈ plan.months, GoodMonth m := by
  simp only [generate_payoff_plan] at hrun
  cases haux : generate_payoff_plan_aux ordering snowball_inc fuel
      accounts_df snowball_start 0 [] 0 with
  | none => rw [haux] at hrun; simp at hrun
  | some res =>
    rw [haux] at hrun
    simp only [Option.map_some', Option.some.injEq] at hrun
    subst hrun
    intro m hm
    have hmem : m ∈ res.1 := hm
    rcases generate_payoff_plan_aux_good ordering snowball_inc hord h1 fuel
        accounts_df snowball_start 0 [] 0 res hinv hnd h0 haux m hmem
      with h | h
    · exact absurd h (List.not_mem_nil m)
    · exact h

theorem C10_balance_no_overshoot_witness :
    GoodMonth ⟨[⟨"A", 0, -100, 100⟩], 1, 0, 0,
      [⟨"A", -100, 100, 0, 0, 100⟩], 100, 100, [⟨"A", 0, 0, 100⟩]⟩ := by
  have h := C10_balance_no_overshoot [⟨"A", 0, -100, 100⟩] 0 0
    dumbSnowball_get_ordering 2
    ⟨[⟨[⟨"A", 0, -100, 100⟩], 1, 0, 0, [⟨"A", -100, 100, 0, 0, 100⟩],
        100, 100, [⟨"A", 0, 0, 100⟩]⟩], -100, 100, 1⟩
    dumbSnowball_get_ordering_perm
    (by intro a ha
        rw [List.mem_singleton] at ha
        subst ha
        exact ⟨by norm_num, by norm_num, le_rfl⟩)
    (by simp) le_rfl le_rfl evalPlanA
  exact h _ (List.mem_singleton.2 rfl)

end Ynab
